import Mathlib

/-!
Verification of the collaborative-whiteboard core (pen geometry pipeline,
shared-document sync, history manager, tool handlers).

Conventions of the embedding:

* The source stores a stroke's points as a flat even-length array
  `[x0, y0, x1, y1, ...]` (the data-model invariant guarantees evenness).
  We represent such an array as the list of its coordinate pairs
  (`List Point` with `Point := ℚ × ℚ`), so a flat length `2*n` corresponds
  to a list length `n`.
* JavaScript numbers are modelled by `ℚ` (exact arithmetic).
  `Math.sqrt` appears in the source only in two comparisons, in one
  `Math.ceil` argument, and in the velocity magnitude:
  - `Math.sqrt s >= d` and `Math.sqrt s > d` for a constant `d ≥ 0` are
    embedded as the equivalent exact comparisons `d^2 ≤ s` and `d^2 < s`;
  - `Math.ceil (Math.sqrt s / m)` (with `m > 0`) equals the least natural
    `n` with `s ≤ n^2 * m^2`, embedded exactly by `ceilSqrt (s / m^2)`;
  - the velocity magnitude `Math.sqrt s / dt` feeds only the velocity
    history, so `handleMouseMove` is parametric in a square-root
    function `sqrtQ`; every theorem about it holds for all `sqrtQ`.
* Yjs shared arrays are modelled as Lean lists with the Yjs operations
  `delete(i, n)` / `insert(i, xs)` / `push` made explicit.
-/

namespace NLCC

/-- A 2-D point: one `(x, y)` coordinate pair of the flat points array. -/
abbrev Point : Type := ℚ × ℚ

/-- Squared euclidean distance.  The source computes
`Math.sqrt (Math.pow (x2-x1) 2 + Math.pow (y2-y1) 2)`; all its uses are
embedded through this squared form (see the header comment). -/
def distSq (p q : Point) : ℚ := (q.1 - p.1) ^ 2 + (q.2 - p.2) ^ 2

/-- Helper for the least `n ≥ start` with `c ≤ n * n`, by bounded search
(structural recursion on the fuel, so the kernel can evaluate it). -/
def sqrtCeilFrom (c : ℕ) : ℕ → ℕ → ℕ
  | n, 0 => n
  | n, fuel + 1 => if c ≤ n * n then n else sqrtCeilFrom c (n + 1) fuel

/-- Least natural number `n` with `c ≤ n * n`. -/
def natCeilSqrt (c : ℕ) : ℕ := sqrtCeilFrom c 0 c

/-- `ceilSqrt q` is the least natural `n` with `(q : ℚ) ≤ n^2`, i.e. the
ceiling of the real square root of `q`.  It embeds the source expression
`Math.ceil (distance / maxDistance)` with `q = distSq / maxDistance^2`. -/
def ceilSqrt (q : ℚ) : ℕ := natCeilSqrt (⌈q⌉).toNat

theorem sqrtCeilFrom_spec (c : ℕ) :
    ∀ (fuel n : ℕ), c ≤ (n + fuel) * (n + fuel) → (∀ m < n, m * m < c) →
      c ≤ sqrtCeilFrom c n fuel * sqrtCeilFrom c n fuel ∧
        ∀ m < sqrtCeilFrom c n fuel, m * m < c := by
  intro fuel
  induction fuel with
  | zero => intro n hbound hmin; exact ⟨by simpa using hbound, by simpa [sqrtCeilFrom] using hmin⟩
  | succ fuel ih =>
    intro n hbound hmin
    by_cases h : c ≤ n * n
    · simp only [sqrtCeilFrom, if_pos h]
      exact ⟨h, hmin⟩
    · simp only [sqrtCeilFrom, if_neg h]
      have harg : n + (fuel + 1) = n + 1 + fuel := by omega
      rw [harg] at hbound
      refine ih (n + 1) hbound ?_
      intro m hm
      rcases Nat.lt_succ_iff_lt_or_eq.mp hm with hm' | hm'
      · exact hmin m hm'
      · subst hm'; omega

theorem natCeilSqrt_spec (c : ℕ) :
    c ≤ natCeilSqrt c * natCeilSqrt c ∧ ∀ m < natCeilSqrt c, m * m < c := by
  refine sqrtCeilFrom_spec c c 0 ?_ (by omega)
  have : c ≤ c * c := by
    rcases Nat.eq_zero_or_pos c with hc | hc
    · omega
    · exact Nat.le_mul_of_pos_left c hc
  simpa using this

/-- The defining upper bound: `q ≤ (ceilSqrt q)^2`. -/
theorem ceilSqrt_sq_ge (q : ℚ) : q ≤ (ceilSqrt q : ℚ) ^ 2 := by
  by_cases hq : q ≤ 0
  · exact hq.trans (by positivity)
  · push_neg at hq
    have hceil : (0 : ℤ) ≤ ⌈q⌉ := by positivity
    have h1 : q ≤ ((⌈q⌉.toNat : ℤ) : ℚ) := by
      rw [Int.toNat_of_nonneg hceil]
      exact_mod_cast Int.le_ceil q
    have h2 := (natCeilSqrt_spec (⌈q⌉).toNat).1
    calc q ≤ ((⌈q⌉.toNat : ℤ) : ℚ) := h1
      _ ≤ ((natCeilSqrt (⌈q⌉).toNat * natCeilSqrt (⌈q⌉).toNat : ℕ) : ℚ) := by
          push_cast; exact_mod_cast h2
      _ = (ceilSqrt q : ℚ) ^ 2 := by rw [ceilSqrt]; push_cast; ring

/-- Minimality: any natural strictly below `ceilSqrt q` has square `< q`. -/
theorem ceilSqrt_min (q : ℚ) (hq : 0 < q) :
    ∀ m : ℕ, m < ceilSqrt q → (m : ℚ) ^ 2 < q := by
  intro m hm
  have h2 := (natCeilSqrt_spec (⌈q⌉).toNat).2 m hm
  have hceil1 : (1 : ℤ) ≤ ⌈q⌉ := by exact_mod_cast Int.ceil_pos.mpr hq
  have hmq : ((m * m : ℕ) : ℤ) < ⌈q⌉ := by
    have : ((m * m : ℕ) : ℤ) < ((⌈q⌉.toNat : ℕ) : ℤ) := by exact_mod_cast h2
    rwa [Int.toNat_of_nonneg (by omega)] at this
  have hlt : ((m * m : ℕ) : ℚ) < q := by
    have h3 : ((m * m : ℕ) : ℤ) ≤ ⌈q⌉ - 1 := by omega
    have h4 : ((⌈q⌉ : ℚ) - 1 : ℚ) < q := by
      have := Int.ceil_lt_add_one q
      push_cast at this ⊢
      linarith
    calc ((m * m : ℕ) : ℚ) ≤ ((⌈q⌉ : ℚ) - 1 : ℚ) := by push_cast at h3 ⊢; exact_mod_cast h3
      _ < q := h4
  calc (m : ℚ) ^ 2 = ((m * m : ℕ) : ℚ) := by push_cast; ring
    _ < q := hlt

theorem ceilSqrt_pos (q : ℚ) (hq : 0 < q) : 0 < ceilSqrt q := by
  by_contra h
  push_neg at h
  interval_cases hn : ceilSqrt q
  · have := ceilSqrt_sq_ge q
    rw [hn] at this
    norm_num at this
    exact absurd this (not_le.mpr hq)

/-!
## Geometry pipeline (src/src/tools/pen.ts)
-/

/-- Linear interpolation between two points:
`(prevX + (currX - prevX) * t, prevY + (currY - prevY) * t)`. -/
def lerp (a b : Point) (t : ℚ) : Point := (a.1 + (b.1 - a.1) * t, a.2 + (b.2 - a.2) * t)

/-- The points pushed by the inner loop of `interpolatePoints` for one
over-long segment: `for (step = 1; step <= steps; step++)` pushes
`lerp prev curr (step / steps)`.  (At `step = steps` this is exactly
`curr` in exact arithmetic.) -/
def interpBridge (prev curr : Point) (steps : ℕ) : List Point :=
  (List.range steps).map fun (k : ℕ) => lerp prev curr (((k : ℚ) + 1) / (steps : ℚ))

/-- Body of `interpolatePoints`' main loop.  `prev` is the last element
pushed so far (the source reads it back from the output array; after a
bridge that element equals `curr` exactly, see `interpBridge`).
`steps = Math.ceil (distance / maxDistance)` is embedded as
`ceilSqrt (distSq / maxD^2)` (see the header comment). -/
def interpLoop (maxD : ℚ) : Point → List Point → List Point
  | _, [] => []
  | prev, p :: ps =>
    if maxD ^ 2 < distSq prev p then
      interpBridge prev p (ceilSqrt (distSq prev p / maxD ^ 2)) ++ interpLoop maxD p ps
    else p :: interpLoop maxD p ps

/-- `interpolatePoints` (pen.ts:127).  Arrays with fewer than 4 raw numbers
(2 pairs) are returned unchanged; otherwise the first pair seeds the output
and the loop bridges over-long segments. -/
def interpolatePoints (points : List Point) (maxD : ℚ) : List Point :=
  match points with
  | [] => []
  | [p] => [p]
  | p0 :: rest => p0 :: interpLoop maxD p0 rest

/-- Body of `optimizePoints`' loop.  `lastKept` is the last element of the
output so far; a point is kept iff its distance from `lastKept` is at
least `minDistance` (embedded as `minD^2 ≤ distSq`). -/
def optLoop (minD : ℚ) : Point → List Point → List Point
  | _, [] => []
  | lastKept, p :: ps =>
    if minD ^ 2 ≤ distSq lastKept p then p :: optLoop minD p ps
    else optLoop minD lastKept ps

/-- `optimizePoints` (pen.ts:93).  Arrays with fewer than 4 raw numbers
(2 pairs) are returned unchanged; otherwise the first pair is always kept,
the loop decimates, and the input's last pair is appended whenever it
differs from the last kept pair. -/
def optimizePoints (points : List Point) (minD : ℚ) : List Point :=
  match points with
  | [] => []
  | [p] => [p]
  | p0 :: rest =>
    let kept := p0 :: optLoop minD p0 rest
    let plast := rest.getLastD p0
    let lastOpt := (optLoop minD p0 rest).getLastD p0
    if plast = lastOpt then kept else kept ++ [plast]

/-- JavaScript `a || b` for `a = points[i]` (which is `undefined` out of
bounds): yields `b` when `a` is absent or `0` (falsy), else `a`. -/
def jsOr (a : Option ℚ) (b : ℚ) : ℚ :=
  match a with
  | none => b
  | some x => if x = 0 then b else x

/-- The 4th Catmull-Rom control point as selected by `smoothPoints`
(pen.ts:58): `p3x = points[i + 4] || p2x; p3y = points[i + 5] || p2y`,
where pair `i/2 + 2` is the head of `rest`.  Each coordinate falls back
to `p2`'s coordinate independently via JavaScript `||`. -/
def crP3 (p2 : Point) (rest : List Point) : Point :=
  (jsOr (rest.head?.map Prod.fst) p2.1, jsOr (rest.head?.map Prod.snd) p2.2)

/-- One coordinate of the Catmull-Rom spline formula (pen.ts:68). -/
def catmullRom (a b c d u : ℚ) : ℚ :=
  (2 * b + (-a + c) * u + (2 * a - 5 * b + 4 * c - d) * u ^ 2 +
    (-a + 3 * b - 3 * c + d) * u ^ 3) / 2

/-- The points pushed for one window of `smoothPoints`:
`for (t = 0; t <= 3; t++)` with `u = t / 3`. -/
def crSegment (p0 p1 p2 p3 : Point) : List Point :=
  (List.range 4).map fun (t : ℕ) =>
    (catmullRom p0.1 p1.1 p2.1 p3.1 ((t : ℚ) / 3), catmullRom p0.2 p1.2 p2.2 p3.2 ((t : ℚ) / 3))

/-- `smoothPoints`' main loop: windows `(points[j-1], points[j], points[j+1],
points[j+2] or fallback)` for `j = 1 .. n-2` (coords `i = 2; i < len - 2`). -/
def crLoop : List Point → List Point
  | p0 :: p1 :: p2 :: rest => crSegment p0 p1 p2 (crP3 p2 rest) ++ crLoop (p1 :: p2 :: rest)
  | _ => []

/-- `smoothPoints` (pen.ts:45).  The `tension` parameter exists in the
source signature but is never read in the body; it is kept here untouched
for fidelity.  Arrays with fewer than 6 raw numbers (3 pairs) are returned
unchanged; otherwise: first pair, the Catmull-Rom windows, last pair. -/
def smoothPoints (points : List Point) (tension : ℚ) : List Point :=
  if points.length < 3 then points
  else points.take 1 ++ crLoop points ++ points.drop (points.length - 1)

/-- One coordinate of the quadratic Bezier formula (pen.ts:31). -/
def quadBezier (a c b u : ℚ) : ℚ := (1 - u) ^ 2 * a + 2 * (1 - u) * u * c + u ^ 2 * b

/-- The points pushed for one window of `smoothPointsAdvanced`:
control point is the midpoint of `curr` and `next`;
`for (t = 0; t <= 4; t++)` with `u = t / 4`. -/
def bezierSegment (prev curr next : Point) : List Point :=
  (List.range 5).map fun (t : ℕ) =>
    (quadBezier prev.1 ((curr.1 + next.1) / 2) curr.1 ((t : ℚ) / 4),
     quadBezier prev.2 ((curr.2 + next.2) / 2) curr.2 ((t : ℚ) / 4))

/-- `smoothPointsAdvanced`'s main loop: windows `(points[j-1], points[j],
points[j+1])` for `j = 1 .. n-2`. -/
def advLoop : List Point → List Point
  | prev :: curr :: next :: rest => bezierSegment prev curr next ++ advLoop (curr :: next :: rest)
  | _ => []

/-- `smoothPointsAdvanced` (pen.ts:4).  Arrays with fewer than 6 raw
numbers (3 pairs) are returned unchanged; otherwise: first pair, the
quadratic-Bezier windows, last pair. -/
def smoothPointsAdvanced (points : List Point) : List Point :=
  if points.length < 3 then points
  else points.take 1 ++ advLoop points ++ points.drop (points.length - 1)

/-- Average of the velocity history (pen.ts:230):
`history.length > 0 ? history.reduce((a, b) => a + b, 0) / history.length : 0`. -/
def avgVelocity (hist : List ℚ) : ℚ :=
  if hist.length = 0 then 0 else hist.sum / (hist.length : ℚ)

/-- The velocity-adaptive processing applied to the accumulated points on
every pen move (pen.ts:240-262): tiered interpolation, decimation and
smoothing.  `length > 6` on raw numbers is `length > 3` on pairs. -/
def processPoints (newPoints : List Point) (hist : List ℚ) : List Point :=
  let avg := avgVelocity hist
  if avg > 4 / 5 then
    let p1 := interpolatePoints newPoints 8
    let p2 := optimizePoints p1 1
    if p2.length > 3 then smoothPointsAdvanced p2 else p2
  else if avg > 3 / 10 then
    let p1 := interpolatePoints newPoints 10
    let p2 := optimizePoints p1 (3 / 2)
    if p2.length > 3 then smoothPoints p2 (2 / 5) else p2
  else
    let p1 := interpolatePoints newPoints 12
    let p2 := optimizePoints p1 2
    if p2.length > 3 then smoothPoints p2 (1 / 5) else p2

/-!
## Entities and Yjs collection operations
-/

/-- A pen stroke (`Line` in src/unnamed/part_000:14): id, flat points
array (as coordinate pairs), tool tag, color, stroke width. -/
structure Line where
  id : String
  points : List Point
  tool : String
  color : String
  strokeWidth : ℚ
deriving DecidableEq

/-- An image entity, per the data model (the `ImageItem` type lives in the
absent file src/src/tools/image.ts; fields from spec section 3). -/
structure ImageItem where
  id : String
  x : ℚ
  y : ℚ
  width : ℚ
  height : ℚ
  scaleX : ℚ
  scaleY : ℚ
  rotation : ℚ
  src : String
deriving DecidableEq

/-- A shape entity, per the data model (the `Shape` type lives in the
absent file src/src/tools/shapes.ts; fields from spec section 3). -/
structure Shape where
  id : String
  type : String
  x : ℚ
  y : ℚ
  width : Option ℚ
  height : Option ℚ
  radius : Option ℚ
  radiusX : Option ℚ
  radiusY : Option ℚ
  points : Option (List Point)
  color : String
  strokeWidth : ℚ
  scaleX : ℚ
  scaleY : ℚ
  rotation : ℚ
deriving DecidableEq

/-- A text entity, per the data model (the `TextItem` type lives in the
absent file src/src/tools/text.ts; fields from spec section 3). -/
structure TextItem where
  id : String
  x : ℚ
  y : ℚ
  text : String
  color : String
  fontSize : ℚ
  fontFamily : String
  scaleX : ℚ
  scaleY : ℚ
  rotation : ℚ
  isEditing : Bool
deriving DecidableEq

/-- Yjs `arr.delete(i, n)`: remove `n` consecutive elements starting at
index `i`. -/
def yDelete (l : List α) (i n : ℕ) : List α := l.take i ++ l.drop (i + n)

/-- Yjs `arr.insert(i, xs)`: insert the elements of `xs` at index `i`. -/
def yInsert (l : List α) (i : ℕ) (xs : List α) : List α := l.take i ++ xs ++ l.drop i

/-- Repeated Yjs `arr.push([x])`, one element at a time, as in the
`forEach`-push loops of the source. -/
def yPushAll (l : List α) (xs : List α) : List α := xs.foldl (fun acc x => acc ++ [x]) l

/-!
## PenTool event handlers (src/src/tools/pen.ts, class PenTool)
-/

/-- The `PenTool` static mutable fields (pen.ts:160-162), passed and
returned explicitly. -/
structure PenStatics where
  lastTimestamp : ℚ
  lastPosition : Option Point
  velocityHistory : List ℚ
deriving DecidableEq

/-- `PenTool.shouldSyncLine` (pen.ts:270): `line.points.length >= 4` raw
numbers, i.e. at least 2 coordinate pairs. -/
def shouldSyncLine (line : Line) : Bool := 2 ≤ line.points.length

/-- `PenTool.handleMouseMove` (pen.ts:198).  Inputs: the pointer position
resolved from the event (`none` when `getPointerPosition()` is null), the
current stroke, the stage offset, the current wall-clock time
(`Date.now()`), and the static state.  Output: the updated stroke and the
updated static state.  `sqrtQ` abstracts `Math.sqrt` in the velocity
magnitude (its value does not affect any verified property). -/
def handleMouseMove (sqrtQ : ℚ → ℚ) (pointerPos : Option Point) (currentLine : Line)
    (stagePos : Point) (currentTime : ℚ) (st : PenStatics) : Line × PenStatics :=
  match pointerPos with
  | none => (currentLine, st)
  | some point =>
    let adjusted : Point := (point.1 - stagePos.1, point.2 - stagePos.2)
    let timeDelta := currentTime - st.lastTimestamp
    let hist :=
      match st.lastPosition with
      | some lp =>
        if 0 < timeDelta then
          let velocity := sqrtQ (distSq lp adjusted) / timeDelta
          let pushed := st.velocityHistory ++ [velocity]
          if 5 < pushed.length then pushed.drop 1 else pushed
        else st.velocityHistory
      | none => st.velocityHistory
    let newPoints := currentLine.points ++ [adjusted]
    ({ currentLine with points := processPoints newPoints hist },
     { lastTimestamp := currentTime, lastPosition := some adjusted, velocityHistory := hist })

/-- The pen branch of `handleMouseUp` (src/unnamed/part_000:337-347) with
`tool = 'pen'`: when a gesture is in progress and a current stroke exists,
push it onto the shared lines collection exactly when `shouldSyncLine`
holds, and clear the draft. -/
def handleMouseUpPen (yLines : List Line) (isDrawing : Bool) (currentLine : Option Line) :
    List Line × Option Line :=
  if isDrawing = false then (yLines, currentLine)
  else
    match currentLine with
    | some l => (if shouldSyncLine l then yLines ++ [l] else yLines, none)
    | none => (yLines, none)

/-!
## Replica sync (src/unnamed/part_000:129-140, syncLines)

Each element of the shared collection is a string; `JSON.parse` applied to
it either throws (malformed JSON), or yields a value that fails the
`line && line.id` filter, or yields a valid entity.  The three outcomes
are the three constructors below.  The whole `map`/`filter` is wrapped in
one `try { ... setSyncedLines(lines) } catch { console.error }`, so a
throwing element aborts the entire pass and the derived list keeps its
previous value.
-/

/-- Parse outcome of one stored collection element. -/
inductive StoredElem where
  | malformed : StoredElem
  | invalidEntity : StoredElem
  | valid : Line → StoredElem
deriving DecidableEq

/-- Whether `JSON.parse` throws on this element. -/
def StoredElem.throws : StoredElem → Bool
  | .malformed => true
  | _ => false

/-- The entity kept by the `line && line.id` filter, if any. -/
def StoredElem.entity : StoredElem → Option Line
  | .valid l => some l
  | _ => none

/-- `syncLines`: `prev` is the derived list before the pass (kept when the
`try` block throws), `elems` the shared collection's contents. -/
def syncLines (prev : List Line) (elems : List StoredElem) : List Line :=
  if elems.any StoredElem.throws then prev
  else elems.filterMap StoredElem.entity

/-!
## Text edit completion (src/unnamed/part_000:484-504, handleTextEdit,
textId = 'new')
-/

/-- JavaScript `String.prototype.trim`: strip leading and trailing
whitespace.  Embedded structurally over the character list (Lean's own
`String.trim` is byte-position based and does not reduce in the kernel). -/
def jsTrim (s : String) : String :=
  ⟨((s.data.dropWhile Char.isWhitespace).reverse.dropWhile Char.isWhitespace).reverse⟩

/-- `handleTextEdit` for `textId === 'new'`: finalize or discard the text
entity recorded in `lastCreatedTextId`.  Returns the updated shared texts
collection and the new `lastCreatedTextId` (always cleared).
`newText.trim()` being truthy is `jsTrim newText ≠ ""`. -/
def handleTextEditNew (texts : List TextItem) (lastCreatedTextId : Option String)
    (newText : String) : List TextItem × Option String :=
  match lastCreatedTextId with
  | some lastTextId =>
    if jsTrim newText ≠ "" then
      match texts.findIdx? (fun t => t.id = lastTextId) with
      | some textIndex =>
        match texts.get? textIndex with
        | some old =>
          (yInsert (yDelete texts textIndex 1) textIndex
            [{ old with text := newText, isEditing := false }], none)
        | none => (texts, none)
      | none => (texts, none)
    else
      match texts.findIdx? (fun t => t.id = lastTextId) with
      | some textIndex => (yDelete texts textIndex 1, none)
      | none => (texts, none)
  | none => (texts, none)

/-!
## History manager and undo/redo (src/unnamed/part_000:112-127, 523-676)

The `HistoryManager` class lives in the absent file src/src/tools/history.ts;
its state and `saveState`/`undo`/`redo` are modelled from spec section 4.5.
The `saveToHistory` guard, the `undo`/`redo` callbacks and the
clear-then-bulk-insert replacement are embedded from the source.
-/

/-- A full-document snapshot (`WhiteboardState`): the four entity lists
plus a timestamp. -/
structure Snapshot where
  lines : List Line
  images : List ImageItem
  shapes : List Shape
  texts : List TextItem
  timestamp : ℚ
deriving DecidableEq

/-- Modelled from the spec: the `HistoryManager` state (absent file
src/src/tools/history.ts) — a bounded ordered sequence of snapshots plus a
cursor, capacity default 50. -/
structure HistoryManager where
  entries : List Snapshot
  cursor : ℕ
  capacity : ℕ
deriving DecidableEq

/-- Modelled from the spec: `saveState` pushes a new entry, truncates any
redo-tail, and evicts the oldest entry if the capacity is exceeded. -/
def saveState (h : HistoryManager) (s : Snapshot) : HistoryManager :=
  let kept := h.entries.take (h.cursor + 1)
  let entries := kept ++ [s]
  if h.capacity < entries.length then
    { h with entries := entries.drop (entries.length - h.capacity),
             cursor := h.capacity - 1 }
  else { h with entries := entries, cursor := entries.length - 1 }

/-- Modelled from the spec: `undo()` — if the cursor has a previous entry,
return it and decrement the cursor; else report nothing to undo. -/
def historyUndo (h : HistoryManager) : Option Snapshot × HistoryManager :=
  if 0 < h.cursor then
    match h.entries.get? (h.cursor - 1) with
    | some s => (some s, { h with cursor := h.cursor - 1 })
    | none => (none, h)
  else (none, h)

/-- Modelled from the spec: `redo()` — symmetric to `undo()`. -/
def historyRedo (h : HistoryManager) : Option Snapshot × HistoryManager :=
  if h.cursor + 1 < h.entries.length then
    match h.entries.get? (h.cursor + 1) with
    | some s => (some s, { h with cursor := h.cursor + 1 })
    | none => (none, h)
  else (none, h)

/-- The four shared Yjs collections. -/
structure DocState where
  lines : List Line
  images : List ImageItem
  shapes : List Shape
  texts : List TextItem
deriving DecidableEq

/-- The orchestrator state relevant to history: the shared document, the
per-client history manager, and the `isUndoRedoOperation` reentrancy flag. -/
structure AppState where
  doc : DocState
  history : HistoryManager
  isUndoRedoOperation : Bool
deriving DecidableEq

/-- `saveToHistory` (src/unnamed/part_000:112-127): a no-op while
`isUndoRedoOperation` is set; otherwise records a snapshot of the four
derived lists. -/
def saveToHistory (st : AppState) (now : ℚ) : AppState :=
  if st.isUndoRedoOperation then st
  else
    let state : Snapshot := ⟨st.doc.lines, st.doc.images, st.doc.shapes, st.doc.texts, now⟩
    { st with history := saveState st.history state }

/-- The `undo` callback (src/unnamed/part_000:523-599): set the flag, pop
the history; when a previous snapshot exists, replace every collection by
`delete(0, length)` followed by pushing each snapshot element; finally
clear the flag.  (The temporary unobserve/re-observe of the Yjs observers
has no effect on the document or history state and is not modelled.) -/
def undo (st : AppState) : AppState :=
  match historyUndo st.history with
  | (some previousState, h) =>
    { doc :=
        { lines := yPushAll (yDelete st.doc.lines 0 st.doc.lines.length) previousState.lines,
          images := yPushAll (yDelete st.doc.images 0 st.doc.images.length) previousState.images,
          shapes := yPushAll (yDelete st.doc.shapes 0 st.doc.shapes.length) previousState.shapes,
          texts := yPushAll (yDelete st.doc.texts 0 st.doc.texts.length) previousState.texts },
      history := h,
      isUndoRedoOperation := false }
  | (none, h) => { st with history := h, isUndoRedoOperation := false }

/-- The `redo` callback (src/unnamed/part_000:601-676): symmetric to
`undo`. -/
def redo (st : AppState) : AppState :=
  match historyRedo st.history with
  | (some nextState, h) =>
    { doc :=
        { lines := yPushAll (yDelete st.doc.lines 0 st.doc.lines.length) nextState.lines,
          images := yPushAll (yDelete st.doc.images 0 st.doc.images.length) nextState.images,
          shapes := yPushAll (yDelete st.doc.shapes 0 st.doc.shapes.length) nextState.shapes,
          texts := yPushAll (yDelete st.doc.texts 0 st.doc.texts.length) nextState.texts },
      history := h,
      isUndoRedoOperation := false }
  | (none, h) => { st with history := h, isUndoRedoOperation := false }

/-!
## Concrete sample entities used by witnesses
-/

/-- A 1-point stroke (a draft, not eligible for sharing). -/
def sampleLine1 : Line :=
  { id := "s1", points := [((0 : ℚ), (0 : ℚ))], tool := "pen", color := "black", strokeWidth := 1 }

/-- A 2-point stroke (eligible for sharing). -/
def sampleLine2 : Line :=
  { id := "s2", points := [((0 : ℚ), (0 : ℚ)), ((1 : ℚ), (1 : ℚ))], tool := "pen",
    color := "black", strokeWidth := 1 }

/-- Initial pen static state. -/
def sampleStatics : PenStatics := { lastTimestamp := 0, lastPosition := none, velocityHistory := [] }

/-!
## Claim theorems
-/

/-- C4: `shouldSyncLine line` is true iff `line.points` holds at least 2
coordinate pairs (at least 4 raw numbers, the flat length being twice the
pair count), on pen gesture end the stroke is pushed to the shared lines
collection exactly when `shouldSyncLine` is true, and a 1-point stroke is
never committed. -/
theorem shouldSyncLine_iff_and_commit (line : Line) (yl : List Line) :
    (shouldSyncLine line = true ↔ 2 ≤ line.points.length) ∧
    ((handleMouseUpPen yl true (some line)).1 = yl ++ [line] ↔ shouldSyncLine line = true) ∧
    (line.points.length = 1 → (handleMouseUpPen yl true (some line)).1 = yl) := by
  refine ⟨by simp [shouldSyncLine], ?_, ?_⟩
  · by_cases h : shouldSyncLine line = true
    · simp [handleMouseUpPen, h]
    · have h' : shouldSyncLine line = false := by simpa using h
      simp only [handleMouseUpPen, h']
      norm_num
  · intro h1
    have h : shouldSyncLine line = false := by simp [shouldSyncLine, h1]
    simp [handleMouseUpPen, h]

/-- C4 witness: at a concrete 1-point stroke the commit is refused, and at
a concrete 2-point stroke it goes through. -/
theorem shouldSyncLine_iff_and_commit_witness :
    ((handleMouseUpPen [] true (some sampleLine1)).1 = []) ∧
    ((handleMouseUpPen [] true (some sampleLine2)).1 = [] ++ [sampleLine2]) := by
  constructor
  · exact (shouldSyncLine_iff_and_commit sampleLine1 []).2.2 rfl
  · exact (shouldSyncLine_iff_and_commit sampleLine2 []).2.1.mpr (by decide)

/-- C8: the geometry pipeline (interpolate, then decimate, then smooth,
with tier parameters fixed by the average of the velocity history) is a
deterministic function of the raw point sequence and the velocity
history: two runs on equal inputs give the identical output sequence. -/
theorem processPoints_deterministic (pts₁ pts₂ : List Point) (h₁ h₂ : List ℚ)
    (hp : pts₁ = pts₂) (hh : h₁ = h₂) : processPoints pts₁ h₁ = processPoints pts₂ h₂ := by
  rw [hp, hh]

/-- C8 witness: two runs on a concrete equal input agree. -/
theorem processPoints_deterministic_witness :
    processPoints [((0 : ℚ), (0 : ℚ)), ((1 : ℚ), (0 : ℚ))] [] =
      processPoints [((0 : ℚ), (0 : ℚ)), ((1 : ℚ), (0 : ℚ))] [] :=
  processPoints_deterministic _ _ _ _ rfl rfl

/-- C10: `PenTool.handleMouseMove` changes only the `points` field of the
current stroke — `id`, `tool`, `color` and `strokeWidth` of the returned
stroke equal those of the input stroke — and when the event has no
resolvable pointer position the input stroke is returned unchanged. -/
theorem handleMouseMove_frame (sqrtQ : ℚ → ℚ) (pointerPos : Option Point) (line : Line)
    (stagePos : Point) (t : ℚ) (st : PenStatics) :
    ((handleMouseMove sqrtQ pointerPos line stagePos t st).1.id = line.id ∧
     (handleMouseMove sqrtQ pointerPos line stagePos t st).1.tool = line.tool ∧
     (handleMouseMove sqrtQ pointerPos line stagePos t st).1.color = line.color ∧
     (handleMouseMove sqrtQ pointerPos line stagePos t st).1.strokeWidth = line.strokeWidth) ∧
    (pointerPos = none → (handleMouseMove sqrtQ pointerPos line stagePos t st).1 = line) := by
  cases pointerPos <;> simp [handleMouseMove]

/-- C10 witness: at a concrete strokeless event the stroke is unchanged,
and at a concrete move the identity fields are preserved. -/
theorem handleMouseMove_frame_witness :
    ((handleMouseMove id none sampleLine1 ((0 : ℚ), (0 : ℚ)) 1 sampleStatics).1 = sampleLine1) ∧
    (handleMouseMove id (some ((2 : ℚ), (2 : ℚ))) sampleLine1 ((0 : ℚ), (0 : ℚ)) 1
        sampleStatics).1.id = sampleLine1.id := by
  constructor
  · exact (handleMouseMove_frame id none sampleLine1 ((0 : ℚ), (0 : ℚ)) 1 sampleStatics).2 rfl
  · exact (handleMouseMove_frame id (some ((2 : ℚ), (2 : ℚ))) sampleLine1 ((0 : ℚ), (0 : ℚ)) 1
      sampleStatics).1.1

/-- C2 counterexample: the claim says the existing 4th control point is
used regardless of its coordinate values, but with points
`(1,1), (2,2), (3,3), (0,5)` the 4th window point `(0,5)` exists and the
spline still uses `(3,5)` — JavaScript `||` treats the coordinate `0` as
absent. -/
theorem crP3_zero_coordinate_counterexample :
    List.head? [((0 : ℚ), (5 : ℚ))] = some ((0 : ℚ), (5 : ℚ)) ∧
    crP3 ((3 : ℚ), (3 : ℚ)) [((0 : ℚ), (5 : ℚ))] = ((3 : ℚ), (5 : ℚ)) ∧
    crP3 ((3 : ℚ), (3 : ℚ)) [((0 : ℚ), (5 : ℚ))] ≠ ((0 : ℚ), (5 : ℚ)) := by
  refine ⟨rfl, ?_, ?_⟩
  · simp [crP3, jsOr]
  · simp only [crP3, jsOr, List.head?_cons, Option.map_some, ne_eq, Prod.mk.injEq, not_and]
    norm_num

/-- C2 (amended): in Catmull-Rom smoothing the fallback acts coordinatewise
through JavaScript `||`: the 3rd point's coordinate is substituted for the
4th point's coordinate when that coordinate is absent (end of sequence) or
equal to 0; when the 4th window point exists and both its coordinates are
nonzero, exactly that point is used in the spline formula. -/
theorem crP3_amended (p2 : Point) (rest : List Point) :
    (rest.head? = none → crP3 p2 rest = p2) ∧
    (∀ q : Point, rest.head? = some q → q.1 ≠ 0 → q.2 ≠ 0 → crP3 p2 rest = q) := by
  cases rest with
  | nil =>
    refine ⟨fun _ => ?_, by simp⟩
    simp [crP3, jsOr]
  | cons q rs =>
    refine ⟨by simp, ?_⟩
    intro q' hq h1 h2
    simp only [List.head?_cons, Option.some.injEq] at hq
    subst hq
    simp [crP3, jsOr, h1, h2]

/-- C2 witness: a concrete existing 4th point with nonzero coordinates is
used as-is. -/
theorem crP3_amended_witness :
    crP3 ((9 : ℚ), (9 : ℚ)) [((1 : ℚ), (2 : ℚ))] = ((1 : ℚ), (2 : ℚ)) :=
  (crP3_amended ((9 : ℚ), (9 : ℚ)) [((1 : ℚ), (2 : ℚ))]).2 ((1 : ℚ), (2 : ℚ)) rfl
    (by norm_num) (by norm_num)

/-- C1 counterexample: the claim says a collection content with one
unparsable entry plus well-formed entries still yields all the well-formed
entries, but `JSON.parse` throwing on the malformed element aborts the
whole `try` block: with contents `[malformed, valid sampleLine2]` the
derived list stays at its previous value `[]` and the well-formed entry is
lost. -/
theorem syncLines_malformed_counterexample :
    syncLines [] [StoredElem.malformed, StoredElem.valid sampleLine2] = [] ∧
    sampleLine2 ∉ syncLines [] [StoredElem.malformed, StoredElem.valid sampleLine2] := by
  constructor
  · rfl
  · intro h
    simp [syncLines, StoredElem.throws] at h

/-- C1 (amended): an element that parses as JSON but fails the
`line && line.id` validity filter is dropped individually — when no
element throws, every well-formed entry is in the derived list, which is
exactly the filtered parse of the contents; an element on which
`JSON.parse` throws aborts that whole sync pass (the error is caught and
logged, so the sync never crashes, but the derived list keeps its
previous value and the well-formed entries of that pass are not
processed). -/
theorem syncLines_amended (prev : List Line) (elems : List StoredElem) :
    (elems.any StoredElem.throws = false →
      ∀ l : Line, StoredElem.valid l ∈ elems → l ∈ syncLines prev elems) ∧
    (elems.any StoredElem.throws = false →
      syncLines prev elems = elems.filterMap StoredElem.entity) ∧
    (elems.any StoredElem.throws = true → syncLines prev elems = prev) := by
  refine ⟨?_, ?_, ?_⟩
  · intro h l hl
    simp only [syncLines, h, Bool.false_eq_true, if_false, if_neg]
    exact List.mem_filterMap.mpr ⟨StoredElem.valid l, hl, rfl⟩
  · intro h
    simp [syncLines, h]
  · intro h
    simp [syncLines, h]

/-- C1 witness: with one invalid-but-parsable element and one valid one,
the valid entry survives; with one throwing element, the previous derived
list is kept. -/
theorem syncLines_amended_witness :
    sampleLine2 ∈ syncLines [] [StoredElem.invalidEntity, StoredElem.valid sampleLine2] ∧
    syncLines [sampleLine1] [StoredElem.malformed] = [sampleLine1] := by
  constructor
  · exact (syncLines_amended [] [StoredElem.invalidEntity, StoredElem.valid sampleLine2]).1
      rfl sampleLine2 (by simp)
  · exact (syncLines_amended [sampleLine1] [StoredElem.malformed]).2.2 rfl

/-!
## Helper lemmas about the Yjs list operations
-/

theorem yPushAll_eq_append (l xs : List α) : yPushAll l xs = l ++ xs := by
  induction xs generalizing l with
  | nil => simp [yPushAll]
  | cons x xs ih =>
    simp only [yPushAll, List.foldl_cons] at ih ⊢
    rw [ih (l ++ [x])]
    simp

theorem yDelete_all (l : List α) : yDelete l 0 l.length = [] := by
  simp [yDelete]

theorem yDelete_one_eq_eraseIdx (l : List α) (i : ℕ) : yDelete l i 1 = l.eraseIdx i := by
  rw [yDelete, List.eraseIdx_eq_take_drop_succ]

theorem yInsert_yDelete_one_eq_set (l : List α) (i : ℕ) (x : α) (h : i < l.length) :
    yInsert (yDelete l i 1) i [x] = l.set i x := by
  have htk : (l.take i).length = i := by rw [List.length_take]; omega
  have h1 : (l.take i ++ l.drop (i + 1)).take i = l.take i := by
    rw [List.take_append_eq_append_take, htk, Nat.sub_self, List.take_zero, List.append_nil,
      List.take_take, min_self]
  have h2 : (l.take i ++ l.drop (i + 1)).drop i = l.drop (i + 1) := by
    rw [List.drop_append_eq_append_drop, htk, Nat.sub_self, List.drop_zero]
    have hnil : (l.take i).drop i = [] := by
      apply List.drop_eq_nil_of_le
      omega
    rw [hnil, List.nil_append]
  rw [yInsert, yDelete, h1, h2, List.set_eq_take_cons_drop x h]
  simp

theorem getLast?_cons_getLastD (a : α) (l : List α) :
    (a :: l).getLast? = some (l.getLastD a) := by
  induction l generalizing a with
  | nil => rfl
  | cons b m ih => rw [List.getLast?_cons_cons, ih, List.getLastD_cons]

/-- C9: on text edit completion of a newly created text entity, an
empty-or-whitespace entered text removes the entity from the shared texts
collection, a non-empty one commits it with the entered text and
`isEditing = false`, and `lastCreatedTextId` is cleared either way. -/
theorem handleTextEditNew_spec (texts : List TextItem) (tid : String) (newText : String)
    (idx : ℕ) (old : TextItem)
    (hfind : texts.findIdx? (fun t => t.id = tid) = some idx)
    (hget : texts.get? idx = some old) :
    (jsTrim newText = "" →
      (handleTextEditNew texts (some tid) newText).1 = texts.eraseIdx idx) ∧
    (jsTrim newText ≠ "" →
      (handleTextEditNew texts (some tid) newText).1 =
        texts.set idx { old with text := newText, isEditing := false }) ∧
    (handleTextEditNew texts (some tid) newText).2 = none := by
  have hlt : idx < texts.length := by
    by_contra hge
    rw [List.get?_eq_none.mpr (le_of_not_lt hge)] at hget
    exact Option.noConfusion hget
  have hget' : texts[idx]? = some old := by rw [← List.get?_eq_getElem?]; exact hget
  refine ⟨?_, ?_, ?_⟩
  · intro ht
    simp only [handleTextEditNew, ht, ne_eq, not_true_eq_false, if_false, hfind]
    exact yDelete_one_eq_eraseIdx texts idx
  · intro ht
    simp only [handleTextEditNew, ht, ne_eq, not_false_eq_true, if_true, hfind, hget]
    exact yInsert_yDelete_one_eq_set texts idx _ hlt
  · by_cases ht : jsTrim newText = ""
    · simp [handleTextEditNew, ht, hfind]
    · simp [handleTextEditNew, ht, hfind, hget, hget']

/-- A concrete text entity for the C9 witness. -/
def sampleText : TextItem :=
  { id := "t1", x := 0, y := 0, text := "", color := "black", fontSize := 16,
    fontFamily := "Arial", scaleX := 1, scaleY := 1, rotation := 0, isEditing := true }

/-- C9 witness: at a concrete one-entity collection, whitespace input
removes the entity and the input `"hi"` commits it with
`isEditing = false`. -/
theorem handleTextEditNew_spec_witness :
    ((handleTextEditNew [sampleText] (some "t1") " ").1 = [sampleText].eraseIdx 0) ∧
    ((handleTextEditNew [sampleText] (some "t1") "hi").1 =
      [sampleText].set 0 { sampleText with text := "hi", isEditing := false }) := by
  constructor
  · exact (handleTextEditNew_spec [sampleText] "t1" " " 0 sampleText (by decide) rfl).1 (by decide)
  · exact (handleTextEditNew_spec [sampleText] "t1" "hi" 0 sampleText (by decide) rfl).2.1
      (by decide)

/-- C5: applying an undo (or redo) result replaces each of the four
collections by deleting all their elements (`delete(0, length)`) and then
bulk-inserting the returned snapshot's contents — so each collection ends
exactly at the snapshot's contents — the history gains no new entry from
the replacement, and `saveToHistory` is a no-op while the undo/redo flag
is set. -/
theorem undo_redo_replace_and_suppress (st : AppState) (prev next : Snapshot)
    (h h' : HistoryManager)
    (hu : historyUndo st.history = (some prev, h))
    (hr : historyRedo st.history = (some next, h')) :
    ((undo st).doc.lines = yPushAll (yDelete st.doc.lines 0 st.doc.lines.length) prev.lines ∧
     (undo st).doc = ⟨prev.lines, prev.images, prev.shapes, prev.texts⟩ ∧
     (undo st).history.entries = st.history.entries) ∧
    ((redo st).doc = ⟨next.lines, next.images, next.shapes, next.texts⟩ ∧
     (redo st).history.entries = st.history.entries) ∧
    (∀ (st' : AppState) (now : ℚ), st'.isUndoRedoOperation = true →
      saveToHistory st' now = st') := by
  have hentu : h.entries = st.history.entries := by
    unfold historyUndo at hu
    split_ifs at hu with hc
    · rcases hm : st.history.entries.get? (st.history.cursor - 1) with _ | s
      · rw [hm] at hu; exact absurd (congrArg Prod.fst hu) (by simp)
      · rw [hm] at hu
        have := congrArg Prod.snd hu
        simp at this
        rw [← this]
    · exact absurd (congrArg Prod.fst hu) (by simp)
  have hentr : h'.entries = st.history.entries := by
    unfold historyRedo at hr
    split_ifs at hr with hc
    · rcases hm : st.history.entries.get? (st.history.cursor + 1) with _ | s
      · rw [hm] at hr; exact absurd (congrArg Prod.fst hr) (by simp)
      · rw [hm] at hr
        have := congrArg Prod.snd hr
        simp at this
        rw [← this]
    · exact absurd (congrArg Prod.fst hr) (by simp)
  refine ⟨⟨?_, ?_, ?_⟩, ⟨?_, ?_⟩, ?_⟩
  · simp [undo, hu]
  · simp [undo, hu, yPushAll_eq_append, yDelete_all]
  · simp [undo, hu, hentu]
  · simp [redo, hr, yPushAll_eq_append, yDelete_all]
  · simp [redo, hr, hentr]
  · intro st' now hflag
    simp [saveToHistory, hflag]

/-- Concrete snapshots and history for the C5 witness. -/
def snapA : Snapshot := { lines := [], images := [], shapes := [], texts := [], timestamp := 0 }

def snapB : Snapshot :=
  { lines := [sampleLine2], images := [], shapes := [], texts := [], timestamp := 1 }

def snapC : Snapshot :=
  { lines := [sampleLine1, sampleLine2], images := [], shapes := [], texts := [], timestamp := 2 }

def histABC : HistoryManager := { entries := [snapA, snapB, snapC], cursor := 1, capacity := 50 }

def appABC : AppState :=
  { doc := { lines := [sampleLine2], images := [], shapes := [], texts := [] },
    history := histABC, isUndoRedoOperation := false }

/-- C5 witness: at a concrete three-snapshot history with the cursor in
the middle, undo lands the document exactly on the earlier snapshot, redo
on the later one, and neither records a new entry. -/
theorem undo_redo_replace_and_suppress_witness :
    ((undo appABC).doc.lines =
        yPushAll (yDelete appABC.doc.lines 0 appABC.doc.lines.length) snapA.lines ∧
     (undo appABC).doc = ⟨snapA.lines, snapA.images, snapA.shapes, snapA.texts⟩ ∧
     (undo appABC).history.entries = appABC.history.entries) ∧
    ((redo appABC).doc = ⟨snapC.lines, snapC.images, snapC.shapes, snapC.texts⟩ ∧
     (redo appABC).history.entries = appABC.history.entries) := by
  have h := undo_redo_replace_and_suppress appABC snapA snapC
    { histABC with cursor := 0 } { histABC with cursor := 2 } rfl rfl
  exact ⟨h.1, h.2.1⟩

/-- C6: the decimation step keeps both endpoints — for every input point
sequence the output starts with the input's first coordinate pair, and the
input's last coordinate pair is an element of the output even when it lies
closer than `minDistance` to its predecessor. -/
theorem optimizePoints_endpoints (pts : List Point) (minD : ℚ) :
    (optimizePoints pts minD).head? = pts.head? ∧
    (∀ p : Point, pts.getLast? = some p → p ∈ optimizePoints pts minD) := by
  match pts with
  | [] => exact ⟨rfl, by simp⟩
  | [p] => exact ⟨rfl, by simp [optimizePoints]⟩
  | p0 :: q :: rs =>
    constructor
    · simp only [optimizePoints]
      split_ifs <;> simp
    · intro p hp
      rw [getLast?_cons_getLastD, Option.some.injEq] at hp
      subst hp
      simp only [optimizePoints]
      split_ifs with heq
      · rw [heq]
        exact List.getLastD_mem_cons _ _
      · simp

/-- C6 witness: a concrete sequence whose last point lies closer than
`minDistance = 2` to its predecessor still keeps both endpoints. -/
theorem optimizePoints_endpoints_witness :
    (optimizePoints [((0 : ℚ), (0 : ℚ)), ((5 : ℚ), (0 : ℚ)), ((51 : ℚ) / 10, (0 : ℚ))] 2).head? =
      some ((0 : ℚ), (0 : ℚ)) ∧
    ((51 : ℚ) / 10, (0 : ℚ)) ∈
      optimizePoints [((0 : ℚ), (0 : ℚ)), ((5 : ℚ), (0 : ℚ)), ((51 : ℚ) / 10, (0 : ℚ))] 2 := by
  have h := optimizePoints_endpoints
    [((0 : ℚ), (0 : ℚ)), ((5 : ℚ), (0 : ℚ)), ((51 : ℚ) / 10, (0 : ℚ))] 2
  exact ⟨h.1, h.2 ((51 : ℚ) / 10, (0 : ℚ)) rfl⟩

/-!
## C7: the interpolation gap bound
-/

theorem lerp_zero (a b : Point) : lerp a b 0 = a := by
  simp [lerp]

theorem lerp_one (a b : Point) : lerp a b 1 = b := by
  simp [lerp]

theorem distSq_lerp (a b : Point) (t₁ t₂ : ℚ) :
    distSq (lerp a b t₁) (lerp a b t₂) = distSq a b * (t₂ - t₁) ^ 2 := by
  simp only [distSq, lerp]
  ring

/-- Prepending `prev` to a bridge yields the uniform parameter grid
`k / steps` for `k = 0 .. steps`. -/
theorem bridge_cons_eq (prev curr : Point) (n : ℕ) :
    prev :: interpBridge prev curr n =
      (List.range (n + 1)).map (fun (k : ℕ) => lerp prev curr ((k : ℚ) / (n : ℚ))) := by
  rw [List.range_succ_eq_map, List.map_cons, List.map_map]
  have h0 : lerp prev curr ((0 : ℕ) / (n : ℚ)) = prev := by
    rw [Nat.cast_zero, zero_div, lerp_zero]
  rw [h0, interpBridge]
  congr 1
  apply List.map_congr_left
  intro k _
  simp only [Function.comp_apply, Nat.cast_succ]

theorem interpBridge_getLast? (prev curr : Point) (n : ℕ) (hn : 0 < n) :
    (interpBridge prev curr n).getLast? = some curr := by
  obtain ⟨m, rfl⟩ : ∃ m, n = m + 1 := ⟨n - 1, by omega⟩
  rw [interpBridge, List.getLast?_map, List.range_succ, List.getLast?_concat]
  simp only [Option.map_some', Option.some.injEq]
  have hne : ((m : ℚ) + 1) ≠ 0 := by positivity
  rw [show ((m + 1 : ℕ) : ℚ) = (m : ℚ) + 1 by push_cast; ring, div_self hne, lerp_one]

theorem interpBridge_ne_nil (prev curr : Point) (n : ℕ) (hn : 0 < n) :
    interpBridge prev curr n ≠ [] := by
  intro h
  have := congrArg List.length h
  simp [interpBridge] at this
  omega

theorem getLast?_cons_ne_nil (a : α) (l : List α) (h : l ≠ []) :
    (a :: l).getLast? = l.getLast? := by
  cases l with
  | nil => exact absurd rfl h
  | cons b m => exact List.getLast?_cons_cons

theorem chain'_interpBridge (prev curr : Point) (m : ℚ) (hm : 0 < m)
    (hd : m ^ 2 < distSq prev curr) :
    List.Chain' (fun p q => distSq p q ≤ m ^ 2)
      (prev :: interpBridge prev curr (ceilSqrt (distSq prev curr / m ^ 2))) := by
  set s := distSq prev curr with hs
  have hspos : 0 < s := lt_trans (by positivity) hd
  have hqpos : 0 < s / m ^ 2 := by positivity
  set n := ceilSqrt (s / m ^ 2) with hn
  have hnpos : 0 < n := ceilSqrt_pos _ hqpos
  have hnq : (0 : ℚ) < (n : ℚ) := by exact_mod_cast hnpos
  have hbound : s ≤ (n : ℚ) ^ 2 * m ^ 2 := by
    have h1 := ceilSqrt_sq_ge (s / m ^ 2)
    calc s = s / m ^ 2 * m ^ 2 := by field_simp
      _ ≤ (n : ℚ) ^ 2 * m ^ 2 := by
          apply mul_le_mul_of_nonneg_right h1 (by positivity)
  rw [bridge_cons_eq, List.chain'_map, List.chain'_range_succ]
  intro k hk
  rw [distSq_lerp, ← hs]
  have hdiff : ((k : ℚ) + 1) / (n : ℚ) - (k : ℚ) / (n : ℚ) = 1 / (n : ℚ) := by
    field_simp
  rw [show ((Nat.succ k : ℕ) : ℚ) = (k : ℚ) + 1 by push_cast; ring, hdiff]
  rw [div_pow, one_pow, mul_div_assoc']
  rw [div_le_iff (by positivity)]
  calc s * 1 = s := by ring
    _ ≤ (n : ℚ) ^ 2 * m ^ 2 := hbound
    _ = m ^ 2 * (n : ℚ) ^ 2 := by ring

theorem chain'_interpLoop (m : ℚ) (hm : 0 < m) (rest : List Point) :
    ∀ prev : Point, List.Chain' (fun p q => distSq p q ≤ m ^ 2) (prev :: interpLoop m prev rest) := by
  induction rest with
  | nil => intro prev; simp [interpLoop]
  | cons p ps ih =>
    intro prev
    by_cases h : m ^ 2 < distSq prev p
    · simp only [interpLoop, if_pos h]
      rw [← List.cons_append]
      have hqpos : 0 < distSq prev p / m ^ 2 := by
        have : 0 < distSq prev p := lt_trans (by positivity) h
        positivity
      have hnpos : 0 < ceilSqrt (distSq prev p / m ^ 2) := ceilSqrt_pos _ hqpos
      have hbr := chain'_interpBridge prev p m hm h
      have ihp := ih p
      refine hbr.append ihp.tail ?_
      intro x hx y hy
      have hlast : (prev :: interpBridge prev p (ceilSqrt (distSq prev p / m ^ 2))).getLast?
          = some p := by
        rw [getLast?_cons_ne_nil _ _ (interpBridge_ne_nil _ _ _ hnpos)]
        exact interpBridge_getLast? _ _ _ hnpos
      rw [hlast, Option.mem_some_iff] at hx
      subst hx
      exact (List.chain'_cons'.mp ihp).1 y hy
    · simp only [interpLoop, if_neg h]
      exact List.chain'_cons.mpr ⟨le_of_not_lt h, ih p⟩

/-- C7: for every input point sequence and every `maxDistance > 0`, no two
consecutive points of the interpolation output are farther apart than
`maxDistance` (stated on squared distances), and each over-long segment is
bridged by exactly `ceil (distance / maxDistance)` linearly-spaced points:
the step count `n` used by the code satisfies `(n-1) * maxD < distance ≤
n * maxD` (stated in squared form), which characterises the ceiling. -/
theorem interpolatePoints_gap_bound (pts : List Point) (m : ℚ) (hm : 0 < m) :
    List.Chain' (fun p q => distSq p q ≤ m ^ 2) (interpolatePoints pts m) ∧
    (∀ prev p : Point, m ^ 2 < distSq prev p →
      distSq prev p ≤ ((ceilSqrt (distSq prev p / m ^ 2) : ℚ)) ^ 2 * m ^ 2 ∧
      (((ceilSqrt (distSq prev p / m ^ 2) : ℚ)) - 1) ^ 2 * m ^ 2 < distSq prev p) := by
  constructor
  · match pts with
    | [] => simp [interpolatePoints]
    | [p] => simp [interpolatePoints]
    | p0 :: q :: rs => exact chain'_interpLoop m hm (q :: rs) p0
  · intro prev p hd
    set s := distSq prev p with hs
    have hspos : 0 < s := lt_trans (by positivity) hd
    have hqpos : 0 < s / m ^ 2 := by positivity
    set n := ceilSqrt (s / m ^ 2) with hn
    have hnpos : 0 < n := ceilSqrt_pos _ hqpos
    constructor
    · have h1 := ceilSqrt_sq_ge (s / m ^ 2)
      calc s = s / m ^ 2 * m ^ 2 := by field_simp
        _ ≤ (n : ℚ) ^ 2 * m ^ 2 := mul_le_mul_of_nonneg_right h1 (by positivity)
    · have h2 := ceilSqrt_min (s / m ^ 2) hqpos (n - 1) (by omega)
      have hcast : ((n - 1 : ℕ) : ℚ) = (n : ℚ) - 1 := by
        have : (1 : ℕ) ≤ n := hnpos
        push_cast [this]
        ring
      rw [hcast] at h2
      calc ((n : ℚ) - 1) ^ 2 * m ^ 2 < s / m ^ 2 * m ^ 2 := by
            apply mul_lt_mul_of_pos_right h2 (by positivity)
        _ = s := by field_simp

/-- C7 witness: at the concrete sequence `(0,0), (3,0)` with
`maxDistance = 1` the output chain satisfies the squared gap bound. -/
theorem interpolatePoints_gap_bound_witness :
    List.Chain' (fun p q => distSq p q ≤ (1 : ℚ) ^ 2)
      (interpolatePoints [((0 : ℚ), (0 : ℚ)), ((3 : ℚ), (0 : ℚ))] 1) :=
  (interpolatePoints_gap_bound [((0 : ℚ), (0 : ℚ)), ((3 : ℚ), (0 : ℚ))] 1 (by norm_num)).1

/-!
## C3: when the pipeline smooths
-/

/-- The pre-smoothing stage of the pen pipeline: interpolation then
decimation, with the tier parameters selected by the average velocity
(spec-side decomposition of `processPoints`). -/
def preSmoothed (pts : List Point) (hist : List ℚ) : List Point :=
  let avg := avgVelocity hist
  if avg > 4 / 5 then optimizePoints (interpolatePoints pts 8) 1
  else if avg > 3 / 10 then optimizePoints (interpolatePoints pts 10) (3 / 2)
  else optimizePoints (interpolatePoints pts 12) 2

/-- The smoothing flavor selected by the tier: quadratic Bezier for the
high-speed tier, Catmull-Rom otherwise (spec-side decomposition). -/
def tierSmoother (hist : List ℚ) (pts : List Point) : List Point :=
  let avg := avgVelocity hist
  if avg > 4 / 5 then smoothPointsAdvanced pts
  else if avg > 3 / 10 then smoothPoints pts (2 / 5)
  else smoothPoints pts (1 / 5)

/-- C3 counterexample: the claim says every processed sequence with at
least 3 points (6 coordinates) gets a smoothing pass, but the source gates
smoothing on `length > 6` raw numbers (more than 3 pairs): on the raw
input `(0,0), (10,0), (20,0)` with empty velocity history (low tier) the
processed sequence has exactly 3 points and is returned as-is, while the
Catmull-Rom pass the claim promises would have produced a different
(6-point) sequence. -/
theorem processPoints_three_point_counterexample :
    (preSmoothed [((0 : ℚ), (0 : ℚ)), ((10 : ℚ), (0 : ℚ)), ((20 : ℚ), (0 : ℚ))] []).length = 3 ∧
    processPoints [((0 : ℚ), (0 : ℚ)), ((10 : ℚ), (0 : ℚ)), ((20 : ℚ), (0 : ℚ))] [] =
      preSmoothed [((0 : ℚ), (0 : ℚ)), ((10 : ℚ), (0 : ℚ)), ((20 : ℚ), (0 : ℚ))] [] ∧
    processPoints [((0 : ℚ), (0 : ℚ)), ((10 : ℚ), (0 : ℚ)), ((20 : ℚ), (0 : ℚ))] [] ≠
      smoothPoints
        (preSmoothed [((0 : ℚ), (0 : ℚ)), ((10 : ℚ), (0 : ℚ)), ((20 : ℚ), (0 : ℚ))] [])
        (1 / 5) := by
  have hpre : preSmoothed [((0 : ℚ), (0 : ℚ)), ((10 : ℚ), (0 : ℚ)), ((20 : ℚ), (0 : ℚ))] [] =
      [((0 : ℚ), (0 : ℚ)), ((10 : ℚ), (0 : ℚ)), ((20 : ℚ), (0 : ℚ))] := by
    norm_num [preSmoothed, avgVelocity, interpolatePoints, interpLoop, optimizePoints, optLoop,
      distSq, List.getLastD]
  have hproc : processPoints [((0 : ℚ), (0 : ℚ)), ((10 : ℚ), (0 : ℚ)), ((20 : ℚ), (0 : ℚ))] [] =
      [((0 : ℚ), (0 : ℚ)), ((10 : ℚ), (0 : ℚ)), ((20 : ℚ), (0 : ℚ))] := by
    norm_num [processPoints, avgVelocity, interpolatePoints, interpLoop, optimizePoints, optLoop,
      distSq, List.getLastD]
  have hlen : (smoothPoints [((0 : ℚ), (0 : ℚ)), ((10 : ℚ), (0 : ℚ)), ((20 : ℚ), (0 : ℚ))]
      (1 / 5)).length = 6 := by
    norm_num [smoothPoints, crLoop, crSegment, crP3, jsOr]
  refine ⟨by rw [hpre]; rfl, by rw [hproc, hpre], ?_⟩
  rw [hpre, hproc]
  intro hcontra
  have hlencontra := congrArg List.length hcontra
  rw [hlen] at hlencontra
  simp at hlencontra

/-- C3 (amended): the pen pipeline applies its smoothing pass exactly when
the processed (interpolated-then-decimated) sequence has more than 3
points (more than 6 raw coordinates): quadratic-Bezier rounding in the
high-speed tier (average velocity > 0.8), Catmull-Rom otherwise; processed
sequences of 3 or fewer points are returned without smoothing. -/
theorem processPoints_smoothing_threshold (pts : List Point) (hist : List ℚ) :
    processPoints pts hist =
      if 3 < (preSmoothed pts hist).length then tierSmoother hist (preSmoothed pts hist)
      else preSmoothed pts hist := by
  unfold processPoints preSmoothed tierSmoother
  by_cases ha : avgVelocity hist > 4 / 5
  · simp only [ha, if_true]
  · by_cases hb : avgVelocity hist > 3 / 10 <;> simp only [ha, hb, if_true, if_false]

end NLCC
